import Mathlib

/-!
# Verification of the forgen extraction pipeline

Shallow embedding of the forgen type-information extraction pipeline
(`cli/src/analysis/mod.rs`, `cli/src/analysis/hir_ext.rs`,
`src/analysis/extensions.rs`, `src/analysis/extractors.rs`,
`cli/src/models.rs`) and proofs of the specified properties.

Modelling conventions:
* File-system paths are lists of path components (`List String`); the
  output `path` string is the components joined with `/`.
* Rendered type strings, display names and stable ids of the semantic
  engine are plain `String`s supplied by the model of the HIR world.
* `HashSet<String>` becomes `List String`; `HashMap` / `BTreeMap`
  become association lists (insertion order is kept, which the claims do
  not depend on).
* Fallible Rust functions (`anyhow::Result`) become `Except String`.
* Serialized JSON objects are association lists of field name / value
  pairs, built exactly following the serde attributes in `models.rs`
  (rename, skip_serializing_if, tag = "kind", bool-as-int).
-/

namespace Forgen

/-- JSON value model for the serialized output. -/
inductive Json where
  | str : String → Json
  | num : Nat → Json
  | arr : List Json → Json
  | obj : List (String × Json) → Json
deriving Repr

/-- The sentinel string constant `INFERRED_TYPE` from `models.rs`. -/
def INFERRED_TYPE : String := "<inferred>"

/-- Model of `ItemRef` from `models.rs`. -/
structure ItemRef where
  path : String
  id : String
  defined_in : Option String
deriving Repr, DecidableEq

/-- Model of `ParamInfo` from `models.rs`. -/
structure ParamInfo where
  name : String
  ty : String
  type_ref : Option ItemRef
deriving Repr, DecidableEq

/-- Model of `FieldInfo` from `models.rs`. -/
structure FieldInfo where
  name : String
  ty : String
  type_ref : Option ItemRef
deriving Repr, DecidableEq

/-- Model of `VariantInfo` from `models.rs`. -/
structure VariantInfo where
  name : String
  fields : List FieldInfo
deriving Repr, DecidableEq

/-- Model of `TraitItemInfo` from `models.rs` (internally tagged with `kind`). -/
inductive TraitItemInfo where
  | function (name : String) (params : List ParamInfo) (return_type : String)
  | typeAlias (name : String)
  | constItem (name : String) (ty : String)
deriving Repr, DecidableEq

/-- Model of `LocalVarInfo` from `models.rs`. -/
structure LocalVarInfo where
  name : Option String
  ty : String
  id : Nat
  mutable : Bool
deriving Repr, DecidableEq

/-- Model of `ClosureInfo` from `models.rs`. -/
structure ClosureInfo where
  id : Nat
  params : List ParamInfo
  return_type : String
deriving Repr, DecidableEq

/-- Model of `FunctionBodyInfo` from `models.rs`. -/
structure FunctionBodyInfo where
  locals : List LocalVarInfo
  closures : List ClosureInfo
deriving Repr, DecidableEq

/-- Method `is_empty` of `FunctionBodyInfo` from `models.rs`. -/
def FunctionBodyInfo.isEmptyB (b : FunctionBodyInfo) : Bool :=
  b.locals.isEmpty && b.closures.isEmpty

/-- Model of `ItemInfo` from `models.rs` (internally tagged with `kind`,
variant names serialized in snake case). -/
inductive ItemInfo where
  | function (name : String) (id : String) (params : List ParamInfo)
      (return_type : String) (body : Option FunctionBodyInfo)
  | structInfo (name : String) (id : String) (fields : List FieldInfo)
  | enumInfo (name : String) (id : String) (variants : List VariantInfo)
  | traitInfo (name : String) (id : String) (items : List TraitItemInfo)
  | typeAlias (name : String) (id : String) (target : String)
  | constInfo (name : String) (id : String) (ty : String)
  | staticInfo (name : String) (id : String) (ty : String)
deriving Repr, DecidableEq

/-- The `name` field carried by every `ItemInfo` variant. -/
def ItemInfo.itemName : ItemInfo → String
  | .function n _ _ _ _ => n
  | .structInfo n _ _ => n
  | .enumInfo n _ _ => n
  | .traitInfo n _ _ => n
  | .typeAlias n _ _ => n
  | .constInfo n _ _ => n
  | .staticInfo n _ _ => n

/-- The `body` field of a `Function` item (`none` on the other variants). -/
def ItemInfo.bodyField : ItemInfo → Option FunctionBodyInfo
  | .function _ _ _ _ b => b
  | _ => none

/-- Model of `FileTypeInfo` from `models.rs` (`source_file` is serialized under
the key `path`). -/
structure FileTypeInfo where
  source_file : String
  items : List ItemInfo
deriving Repr, DecidableEq

/-- Model of `CrateMetadata` from `models.rs` (`localFlag` models the `local`
field; `local` is a Lean keyword). -/
structure CrateMetadata where
  name : String
  version : Option String
  features : List String
  localFlag : Bool
deriving Repr, DecidableEq

/-! ## Serialization (the serde attributes of `models.rs`)

Each `serialize…Fields` function lists the fields of the object in the
declaration order of the Rust struct, applying exactly the serde
attributes: `skip_serializing_if = "skip_if_none" / "skip_if_empty" /
"skip_if_inferred" / "skip_if_false" / "skip_if_empty_body"`, field
renames (`ret`, `ref`, `mut`, `path`, `local`), `serialize_bool_as_int`,
and the internal `kind` tag on `ItemInfo` / `TraitItemInfo`. -/

/-- Serialization of `ItemRef`. -/
def serializeItemRefFields (r : ItemRef) : List (String × Json) :=
  [("path", .str r.path), ("id", .str r.id)]
    ++ (match r.defined_in with
        | some d => [("defined_in", .str d)]
        | none => [])

/-- Serialization of `ParamInfo` (`ty` skipped when it is the sentinel,
`type_ref` renamed to `ref` and skipped when `None`). -/
def serializeParamFields (p : ParamInfo) : List (String × Json) :=
  [("name", .str p.name)]
    ++ (if p.ty = INFERRED_TYPE then [] else [("ty", .str p.ty)])
    ++ (match p.type_ref with
        | some r => [("ref", .obj (serializeItemRefFields r))]
        | none => [])

/-- Serialization of `FieldInfo` (no skip rule on `ty`). -/
def serializeFieldFields (f : FieldInfo) : List (String × Json) :=
  [("name", .str f.name), ("ty", .str f.ty)]
    ++ (match f.type_ref with
        | some r => [("ref", .obj (serializeItemRefFields r))]
        | none => [])

/-- Serialization of `VariantInfo` (`fields` skipped when empty). -/
def serializeVariantFields (v : VariantInfo) : List (String × Json) :=
  [("name", .str v.name)]
    ++ (if v.fields.isEmpty then []
        else [("fields", .arr (v.fields.map (fun f => .obj (serializeFieldFields f))))])

/-- Serialization of `LocalVarInfo` (`name` skipped when `None`, `ty`
skipped when it is the sentinel, `mutable` renamed to `mut` and encoded
as the integer 0/1). -/
def serializeLocalVarFields (l : LocalVarInfo) : List (String × Json) :=
  (match l.name with
   | some n => [("name", .str n)]
   | none => [])
    ++ (if l.ty = INFERRED_TYPE then [] else [("ty", .str l.ty)])
    ++ [("id", .num l.id), ("mut", .num (if l.mutable then 1 else 0))]

/-- Serialization of `ClosureInfo` (`params` skipped when empty,
`return_type` renamed to `ret` and skipped when it is the sentinel). -/
def serializeClosureFields (c : ClosureInfo) : List (String × Json) :=
  [("id", .num c.id)]
    ++ (if c.params.isEmpty then []
        else [("params", .arr (c.params.map (fun p => .obj (serializeParamFields p))))])
    ++ (if c.return_type = INFERRED_TYPE then [] else [("ret", .str c.return_type)])

/-- Serialization of `FunctionBodyInfo` (both lists skipped when empty). -/
def serializeBodyFields (b : FunctionBodyInfo) : List (String × Json) :=
  (if b.locals.isEmpty then []
   else [("locals", .arr (b.locals.map (fun l => .obj (serializeLocalVarFields l))))])
    ++ (if b.closures.isEmpty then []
        else [("closures", .arr (b.closures.map (fun c => .obj (serializeClosureFields c))))])

/-- Serialization of `TraitItemInfo` with its `kind` tag. -/
def serializeTraitItemFields : TraitItemInfo → List (String × Json)
  | .function name params ret =>
      [("kind", .str "function"), ("name", .str name)]
        ++ (if params.isEmpty then []
            else [("params", .arr (params.map (fun p => .obj (serializeParamFields p))))])
        ++ [("ret", .str ret)]
  | .typeAlias name => [("kind", .str "type_alias"), ("name", .str name)]
  | .constItem name ty =>
      [("kind", .str "const"), ("name", .str name), ("ty", .str ty)]

/-- Model of `skip_if_empty_body` from `models.rs`: the `body` field of a
function item is skipped when it is `None` or empty. -/
def skip_if_empty_body (b : Option FunctionBodyInfo) : Bool :=
  (b.map (fun x => x.isEmptyB)).getD true

/-- Serialization of `ItemInfo` with its `kind` tag; `params`, `fields`
and trait `items` are skipped when empty, `body` is skipped by
`skip_if_empty_body`, while `variants` of an enum is always emitted. -/
def serializeItemFields : ItemInfo → List (String × Json)
  | .function name id params ret body =>
      [("kind", .str "function"), ("name", .str name), ("id", .str id)]
        ++ (if params.isEmpty then []
            else [("params", .arr (params.map (fun p => .obj (serializeParamFields p))))])
        ++ [("ret", .str ret)]
        ++ (if skip_if_empty_body body then []
            else [("body", .obj (serializeBodyFields (body.getD ⟨[], []⟩)))])
  | .structInfo name id fields =>
      [("kind", .str "struct"), ("name", .str name), ("id", .str id)]
        ++ (if fields.isEmpty then []
            else [("fields", .arr (fields.map (fun f => .obj (serializeFieldFields f))))])
  | .enumInfo name id variants =>
      [("kind", .str "enum"), ("name", .str name), ("id", .str id),
       ("variants", .arr (variants.map (fun v => .obj (serializeVariantFields v))))]
  | .traitInfo name id items =>
      [("kind", .str "trait"), ("name", .str name), ("id", .str id)]
        ++ (if items.isEmpty then []
            else [("items", .arr (items.map (fun i => .obj (serializeTraitItemFields i))))])
  | .typeAlias name id target =>
      [("kind", .str "type_alias"), ("name", .str name), ("id", .str id),
       ("target", .str target)]
  | .constInfo name id ty =>
      [("kind", .str "const"), ("name", .str name), ("id", .str id), ("ty", .str ty)]
  | .staticInfo name id ty =>
      [("kind", .str "static"), ("name", .str name), ("id", .str id), ("ty", .str ty)]

/-! ## `extensions.rs`: the Reference Collector and the Path Normalizer -/

/-- The character class kept by the tokenizer: alphanumeric or `_`
(the split predicate of `extract_type_names` is its negation). -/
def isWordChar (c : Char) : Bool := c.isAlphanum || c == '_'

/-- Splitting a character sequence at every character satisfying the
predicate, keeping empty runs — the semantics of the Rust `str::split`
with a `char` predicate pattern. -/
def splitChars (p : Char → Bool) : List Char → List (List Char)
  | [] => [[]]
  | c :: cs =>
      if p c then [] :: splitChars p cs
      else
        match splitChars p cs with
        | t :: ts => (c :: t) :: ts
        | [] => [[c]]

/-- The tokens `extract_type_names` iterates over: the input split on
every character that is not alphanumeric and not `_`. -/
def tokensOf (s : String) : List String :=
  (splitChars (fun c => !isWordChar c) s.data).map String.mk

/-- The keep-condition of `extract_type_names`: the token is non-empty
and its first character is uppercase. -/
def isCapToken (w : String) : Bool := !w.isEmpty && w.front.isUpper

/-- Model of `extract_type_names` from `extensions.rs`: insert every non-empty
capitalized token of the split into the reference set. -/
def extract_type_names (type_str : String) (referenced_types : List String) :
    List String :=
  (tokensOf type_str).foldl
    (fun refs w => if isCapToken w then refs.insert w else refs)
    referenced_types

/-- Model of `Path::stripPrefixOf` on component lists: `some rest` when the path
is `base ++ rest`, `none` otherwise. -/
def stripPrefixOf (p : List String) (base : List String) : Option (List String) :=
  match p, base with
  | p, [] => some p
  | [], _ :: _ => none
  | x :: xs, y :: ys => if x = y then stripPrefixOf xs ys else none

/-- Model of `Iterator::position`: index of the first element satisfying the
predicate. -/
def position (p : α → Bool) : List α → Option Nat
  | [] => none
  | x :: xs => if p x then some 0 else (position p xs).map (· + 1)

/-- Model of `normalize_file_path` from `extensions.rs`, on component lists.
Local: strip `project_dir` as a prefix, falling back to the unmodified
path. External: find the first component equal to `"src"`; if it exists
at an index greater than zero return the suffix starting one component
before it, otherwise return the unmodified path. -/
def normalize_file_path (file_path project_dir : List String)
    (is_external : Bool) : List String :=
  if !is_external then
    (stripPrefixOf file_path project_dir).getD file_path
  else
    match position (fun c => c == "src") file_path with
    | some src_index =>
        if 0 < src_index then file_path.drop (src_index - 1) else file_path
    | none => file_path

/-- The path string recorded in the output: components joined by `/`. -/
def pathToString (p : List String) : String := String.intercalate "/" p

/-! ## Syntax model for function bodies (`extractors.rs`)

The Function Body Extractor performs a purely syntactic scan. The model
records, for a function body, the `let` statements and the closure
expressions in the order the depth-first descendant traversal encounters
them; annotation fields hold the literal source text of the annotation. -/

/-- Model of `ast::Pat` as the body extractor observes it: a simple
identifier pattern (with its optional `mut` token and optional name) or
any other (structured / destructuring) pattern. -/
inductive Pat where
  | identPat (isMut : Bool) (name : Option String)
  | otherPat
deriving Repr, DecidableEq

/-- Model of `ast::LetStmt`: optional binding pattern and optional
explicit type annotation (its literal source text). -/
structure LetStmt where
  pat : Option Pat
  ty : Option String
deriving Repr, DecidableEq

/-- Model of a closure parameter: optional pattern and optional explicit
type annotation text. -/
structure ClosureParamAst where
  pat : Option Pat
  ty : Option String
deriving Repr, DecidableEq

/-- Model of `ast::ClosureExpr`: optional parameter list and optional
explicit return-type annotation text. -/
structure ClosureExprAst where
  param_list : Option (List ClosureParamAst)
  ret_type : Option String
deriving Repr, DecidableEq

/-- Model of the syntax of a function body: the `let` statements and closure
expressions in depth-first encounter order. -/
structure BodyAst where
  lets : List LetStmt
  closures : List ClosureExprAst
deriving Repr, DecidableEq

/-- Model of `extract_local_var` from `extractors.rs`: no pattern means
no local; mutability and name are read off a simple identifier pattern
(other patterns give non-mutable, unnamed); the type is the annotation
text when present, else the sentinel. -/
def extract_local_var (let_stmt : LetStmt) (id : Nat) : Option LocalVarInfo :=
  match let_stmt.pat with
  | none => none
  | some p =>
      let mn : Bool × Option String :=
        match p with
        | .identPat m n => (m, n)
        | .otherPat => (false, none)
      some { name := mn.2
             ty := (let_stmt.ty).getD INFERRED_TYPE
             id := id
             mutable := mn.1 }

/-- Model of `extract_locals` from `extractors.rs`: fold over the `let`
statements, numbering each successfully extracted local by the count of
locals extracted so far. -/
def extract_locals (lets : List LetStmt) : List LocalVarInfo :=
  lets.foldl
    (fun acc st =>
      match extract_local_var st acc.length with
      | some l => acc ++ [l]
      | none => acc)
    []

/-- Model of `extract_closure_info` from `extractors.rs`: parameter
names from simple identifier patterns else the synthetic `_<index>`
name, parameter types and the return type from explicit annotations
else the sentinel. -/
def extract_closure_info (closure : ClosureExprAst) (id : Nat) : ClosureInfo :=
  { id := id
    params :=
      (closure.param_list.map (fun ps =>
        ps.enum.map (fun ip =>
          { name :=
              (ip.2.pat.bind (fun p =>
                match p with
                | .identPat _ n => n
                | .otherPat => none)).getD ("_" ++ toString ip.1)
            ty := (ip.2.ty).getD INFERRED_TYPE
            type_ref := none }))).getD []
    return_type := (closure.ret_type).getD INFERRED_TYPE }

/-- Model of `extract_closures` from `extractors.rs`. -/
def extract_closures (cs : List ClosureExprAst) : List ClosureInfo :=
  cs.foldl (fun acc c => acc ++ [extract_closure_info c acc.length]) []

/-! ## HIR world model

The semantic engine (rust-analyzer) is an external collaborator: the
model represents a resolved crate as a tree of declarations carrying the
strings the engine would render (display names, stable ids, type display
strings) and the resolved defining file of each declaration
(`none` models both an unresolvable `file_id` and an unresolvable VFS
path, which the walker skips alike). -/

/-- A function parameter as the engine presents it: optional resolvable
name and a rendered type string. -/
structure FnParam where
  name : Option String
  ty : String
deriving Repr, DecidableEq

/-- A resolved function: rendered strings, body syntax when the source
is available, and the resolved defining file. -/
structure FnDef where
  name : String
  id : String
  params : List FnParam
  ret : String
  body_ast : Option BodyAst
  file : Option (List String)
deriving Repr, DecidableEq

/-- A resolved struct: named fields with rendered type strings. -/
structure StructDef where
  name : String
  id : String
  fields : List (String × String)
  file : Option (List String)
deriving Repr, DecidableEq

/-- A resolved enum: variants, each with named fields. -/
structure EnumDef where
  name : String
  id : String
  variants : List (String × List (String × String))
  file : Option (List String)
deriving Repr, DecidableEq

/-- A resolved union (recognized but never serialized). -/
structure UnionDef where
  name : String
  id : String
  file : Option (List String)
deriving Repr, DecidableEq

/-- An associated item of a trait as the engine presents it. -/
inductive TraitItemDef where
  | function (name : String) (params : List FnParam) (ret : String)
  | typeAlias (name : String)
  | constItem (name : Option String) (ty : String)
deriving Repr, DecidableEq

/-- A resolved trait with its associated items. -/
structure TraitDef where
  name : String
  id : String
  items : List TraitItemDef
  file : Option (List String)
deriving Repr, DecidableEq

/-- A resolved type alias with its rendered target type. -/
structure AliasDef where
  name : String
  id : String
  target : String
  file : Option (List String)
deriving Repr, DecidableEq

/-- A resolved const; its name may be unresolvable (unnamed const). -/
structure ConstDef where
  name : Option String
  id : String
  ty : String
  file : Option (List String)
deriving Repr, DecidableEq

/-- A resolved static. -/
structure StaticDef where
  name : String
  id : String
  ty : String
  file : Option (List String)
deriving Repr, DecidableEq

/-- Model of `ast::UseTree`: the segments of its path and the paths of
the trees in its grouped-import list. -/
structure UseTree where
  path_segments : List String
  tree_paths : List (List String)
deriving Repr, DecidableEq

/-- Model of `hir::ModuleDef`: a declaration of a module. A submodule
carries the use trees of its own defining file and its direct
declarations; `otherDecl` stands for the remaining variants (variants,
builtin types, macros), which have no display name and no handled file. -/
inductive Decl where
  | module (uses : List UseTree) (decls : List Decl)
  | functionDecl (f : FnDef)
  | structDecl (s : StructDef)
  | enumDecl (e : EnumDef)
  | unionDecl (u : UnionDef)
  | traitDecl (t : TraitDef)
  | aliasDecl (a : AliasDef)
  | constDecl (c : ConstDef)
  | staticDecl (s : StaticDef)
  | otherDecl
deriving Repr

/-- Model of `HirItemExt::display_name` from `hir_ext.rs`: every item
kind with a total `name` accessor yields its display name, a const
yields its optional name, and all remaining variants (including
modules) yield `None`. -/
def Decl.display_name : Decl → Option String
  | .functionDecl f => some f.name
  | .structDecl s => some s.name
  | .enumDecl e => some e.name
  | .unionDecl u => some u.name
  | .traitDecl t => some t.name
  | .aliasDecl a => some a.name
  | .constDecl c => c.name
  | .staticDecl s => some s.name
  | _ => none

/-- Whether the declaration is a submodule (`matches!(def, ModuleDef::Module(_))`). -/
def Decl.isModule : Decl → Bool
  | .module _ _ => true
  | _ => false

/-- Model of `HirItemExt::file_id` composed with `file_id_to_path`: the
resolved file-system path of the defining file of the declaration, `none`
when either step fails (and for the `_ => None` variants). -/
def Decl.fileOf : Decl → Option (List String)
  | .functionDecl f => f.file
  | .structDecl s => s.file
  | .enumDecl e => e.file
  | .unionDecl u => u.file
  | .traitDecl t => t.file
  | .aliasDecl a => a.file
  | .constDecl c => c.file
  | .staticDecl s => s.file
  | _ => none

/-! ## Item extractors (`extractors.rs`)

Each extractor returns the grown reference set together with the output
record it pushes, threading the set left-to-right exactly as the Rust
code threads `&mut ctx.referenced_types`. -/

/-- Model of `extract_function_params` from `extractors.rs`: each
rendered type of each parameter feeds the Reference Collector; a parameter
with no resolvable name gets the synthetic `_<index>` name. -/
def extract_function_params (referenced_types : List String)
    (params : List FnParam) : List String × List ParamInfo :=
  params.enum.foldl
    (fun acc ip =>
      (extract_type_names ip.2.ty acc.1,
       acc.2 ++ [{ name := ip.2.name.getD ("_" ++ toString ip.1)
                   ty := ip.2.ty
                   type_ref := none }]))
    (referenced_types, [])

/-- Model of `extract_function_body` from `extractors.rs`: `None` when
the body syntax of the function is unavailable, else the lexical digest of
its locals and closures. -/
def extract_function_body (func : FnDef) : Option FunctionBodyInfo :=
  func.body_ast.map (fun b =>
    { locals := extract_locals b.lets
      closures := extract_closures b.closures })

/-- Model of `FunctionExtractor::extract` from `extractors.rs`: records
the return type and parameter types into the reference set and builds
the function item; the Function Body Extractor runs only when
`is_external` is false. -/
def FunctionExtractor.extract (referenced_types : List String)
    (func : FnDef) (is_external : Bool) : List String × ItemInfo :=
  let refs1 := extract_type_names func.ret referenced_types
  let pr := extract_function_params refs1 func.params
  (pr.1,
   .function func.name func.id pr.2 func.ret
     (if !is_external then extract_function_body func else none))

/-- Model of `extract_struct_fields` from `extractors.rs` (also the
per-variant field extraction of `extract_enum_variants`, which is the
same computation): the rendered type of each field feeds the reference set. -/
def extract_struct_fields (referenced_types : List String)
    (fields : List (String × String)) : List String × List FieldInfo :=
  fields.foldl
    (fun acc f =>
      (extract_type_names f.2 acc.1,
       acc.2 ++ [{ name := f.1, ty := f.2, type_ref := none }]))
    (referenced_types, [])

/-- Model of `StructExtractor::extract` from `extractors.rs`. -/
def StructExtractor.extract (referenced_types : List String)
    (s : StructDef) : List String × ItemInfo :=
  let fr := extract_struct_fields referenced_types s.fields
  (fr.1, .structInfo s.name s.id fr.2)

/-- Model of `extract_enum_variants` from `extractors.rs`. -/
def extract_enum_variants (referenced_types : List String)
    (variants : List (String × List (String × String))) :
    List String × List VariantInfo :=
  variants.foldl
    (fun acc v =>
      let fr := extract_struct_fields acc.1 v.2
      (fr.1, acc.2 ++ [{ name := v.1, fields := fr.2 }]))
    (referenced_types, [])

/-- Model of `EnumExtractor::extract` from `extractors.rs`. -/
def EnumExtractor.extract (referenced_types : List String)
    (e : EnumDef) : List String × ItemInfo :=
  let vr := extract_enum_variants referenced_types e.variants
  (vr.1, .enumInfo e.name e.id vr.2)

/-- Model of `extract_trait_items` from `extractors.rs`: function items
record their return and parameter types, const items record their type
(with the `_` default name), type-alias items record only their name. -/
def extract_trait_items (referenced_types : List String)
    (items : List TraitItemDef) : List String × List TraitItemInfo :=
  items.foldl
    (fun acc it =>
      match it with
      | .function name ps ret =>
          let refs1 := extract_type_names ret acc.1
          let pr := extract_function_params refs1 ps
          (pr.1, acc.2 ++ [.function name pr.2 ret])
      | .typeAlias name => (acc.1, acc.2 ++ [.typeAlias name])
      | .constItem name ty =>
          (extract_type_names ty acc.1,
           acc.2 ++ [.constItem (name.getD "_") ty]))
    (referenced_types, [])

/-- Model of `TraitExtractor::extract` from `extractors.rs`. -/
def TraitExtractor.extract (referenced_types : List String)
    (t : TraitDef) : List String × ItemInfo :=
  let ir := extract_trait_items referenced_types t.items
  (ir.1, .traitInfo t.name t.id ir.2)

/-- Model of `TypeAliasExtractor::extract` from `extractors.rs`. -/
def TypeAliasExtractor.extract (referenced_types : List String)
    (a : AliasDef) : List String × ItemInfo :=
  (extract_type_names a.target referenced_types,
   .typeAlias a.name a.id a.target)

/-- Model of `ConstExtractor::extract` from `extractors.rs`: an unnamed
const gets the `_` default name. -/
def ConstExtractor.extract (referenced_types : List String)
    (c : ConstDef) : List String × ItemInfo :=
  (extract_type_names c.ty referenced_types,
   .constInfo (c.name.getD "_") c.id c.ty)

/-- Model of `StaticExtractor::extract` from `extractors.rs`. -/
def StaticExtractor.extract (referenced_types : List String)
    (s : StaticDef) : List String × ItemInfo :=
  (extract_type_names s.ty referenced_types,
   .staticInfo s.name s.id s.ty)

/-- Model of `extract_item` from `analysis/mod.rs`: dispatch to the
matching extractor; unions are recognized but skipped, and the
catch-all arm does nothing. The returned option is the record pushed
onto the target file (none for the skipped kinds). -/
def extract_item (referenced_types : List String) (d : Decl)
    (is_external : Bool) : List String × Option ItemInfo :=
  match d with
  | .functionDecl f =>
      let r := FunctionExtractor.extract referenced_types f is_external
      (r.1, some r.2)
  | .structDecl s =>
      let r := StructExtractor.extract referenced_types s
      (r.1, some r.2)
  | .enumDecl e =>
      let r := EnumExtractor.extract referenced_types e
      (r.1, some r.2)
  | .unionDecl _ => (referenced_types, none)
  | .traitDecl t =>
      let r := TraitExtractor.extract referenced_types t
      (r.1, some r.2)
  | .aliasDecl a =>
      let r := TypeAliasExtractor.extract referenced_types a
      (r.1, some r.2)
  | .constDecl c =>
      let r := ConstExtractor.extract referenced_types c
      (r.1, some r.2)
  | .staticDecl s =>
      let r := StaticExtractor.extract referenced_types s
      (r.1, some r.2)
  | _ => (referenced_types, none)

/-! ## Reachability filter and module walker (`analysis/mod.rs`) -/

/-- Model of `should_extract_def` from `analysis/mod.rs`: every
declaration is extracted in the local phase; in the external phase
modules are always extracted (for traversal), and any other declaration
is extracted exactly when its display name resolves to a member of the
reference set. -/
def should_extract_def (referenced_types : List String) (d : Decl)
    (is_external : Bool) : Bool :=
  if !is_external then true
  else if d.isModule then true
  else
    match d.display_name with
    | some name => decide (name ∈ referenced_types)
    | none => false

/-- The file-keyed output map (`FileInfoMap`), as an association list
keyed by the components of the absolute path. -/
abbrev FileMap := List (List String × FileTypeInfo)

/-- Model of `get_or_create_file_info` from `analysis/mod.rs`: first
access creates the record with the normalized `path` string; later
accesses leave it unchanged. -/
def get_or_create_file_info (file_path project_dir : List String)
    (is_external : Bool) (file_infos : FileMap) : FileMap :=
  if (file_infos.lookup file_path).isSome then file_infos
  else
    file_infos ++
      [(file_path,
        { source_file :=
            pathToString (normalize_file_path file_path project_dir is_external)
          items := [] })]

/-- Append an extracted record to the entry of the file (the push performed
through the `&mut FileTypeInfo` returned by `get_or_create_file_info`). -/
def appendItemAt (file_path : List String) (item : Option ItemInfo)
    (file_infos : FileMap) : FileMap :=
  match item with
  | none => file_infos
  | some it =>
      file_infos.map (fun e =>
        if e.1 = file_path then (e.1, { e.2 with items := e.2.items ++ [it] })
        else e)

/-- Model of `ExtractionState` from `analysis/mod.rs`. -/
structure ExtractionState where
  file_infos : FileMap
  crate_metadata : List (String × CrateMetadata)
  referenced_types : List String

/-- Model of `ExtractionState::new`. -/
def ExtractionState.initial : ExtractionState :=
  { file_infos := [], crate_metadata := [], referenced_types := [] }

/-- The non-module tail of one iteration of the declaration loop of
`extract_module_items_by_file`: skip the declaration when it has no
resolvable defining file, otherwise obtain or create the file record
and dispatch to the matching extractor. -/
def walkItem (project_dir : List String) (is_external : Bool)
    (st : ExtractionState) (d : Decl) : ExtractionState :=
  match d.fileOf with
  | none => st
  | some file_path =>
      let fm := get_or_create_file_info file_path project_dir is_external
        st.file_infos
      let ri := extract_item st.referenced_types d is_external
      { st with
          file_infos := appendItemAt file_path ri.2 fm
          referenced_types := ri.1 }

mutual

/-- One iteration of the declaration loop of
`extract_module_items_by_file` from `analysis/mod.rs`: apply the
reachability filter; recurse depth-first into submodules; otherwise
extract the item into its file record (`walkItem`). -/
def walkDecl (project_dir : List String) (is_external : Bool)
    (st : ExtractionState) (d : Decl) : ExtractionState :=
  if !should_extract_def st.referenced_types d is_external then st
  else
    match d with
    | .module _ ds => walkDecls project_dir is_external st ds
    | _ => walkItem project_dir is_external st d

/-- Model of `extract_module_items_by_file` from `analysis/mod.rs`: the
loop over the direct declarations of a module. -/
def walkDecls (project_dir : List String) (is_external : Bool)
    (st : ExtractionState) : List Decl → ExtractionState
  | [] => st
  | d :: ds =>
      walkDecls project_dir is_external
        (walkDecl project_dir is_external st d) ds

end

/-! ## Import scanning (`analysis/mod.rs`, Phase 1 only) -/

/-- The shared insertion rule: insert a non-empty name whose first
character is uppercase (inlined in `extract_use_tree_types` and the
body of `extract_type_names`). -/
def insertIfCap (name : String) (refs : List String) : List String :=
  if isCapToken name then refs.insert name else refs

/-- Model of `extract_use_tree_types` from `analysis/mod.rs`: insert
every capitalized segment of the use path, and of each path in the
grouped-import list. -/
def extract_use_tree_types (u : UseTree) (referenced_types : List String) :
    List String :=
  let r1 := u.path_segments.foldl (fun r n => insertIfCap n r) referenced_types
  u.tree_paths.foldl
    (fun r segs => segs.foldl (fun r n => insertIfCap n r) r) r1

/-- Model of `extract_imports_from_file` from `analysis/mod.rs`: every
use tree of the file syntax feeds the reference set. -/
def extract_imports_from_file (uses : List UseTree)
    (referenced_types : List String) : List String :=
  uses.foldl (fun r u => extract_use_tree_types u r) referenced_types

mutual

/-- The per-declaration step of `extract_module_imports` from
`analysis/mod.rs`: only child modules contribute, each scanning its own
file imports and recursing. -/
def importsOfDecl : Decl → List String → List String
  | .module us subs, refs =>
      importsOfDecls subs (extract_imports_from_file us refs)
  | _, refs => refs

/-- Recursion of `extract_module_imports` over the children of a module. -/
def importsOfDecls : List Decl → List String → List String
  | [], refs => refs
  | d :: ds, refs => importsOfDecls ds (importsOfDecl d refs)

end

/-- Model of `extract_module_imports` from `analysis/mod.rs` applied to
the root module of a crate: scan the use trees of the root file, then recurse
into child modules. -/
def extract_module_imports (uses : List UseTree) (decls : List Decl)
    (referenced_types : List String) : List String :=
  importsOfDecls decls (extract_imports_from_file uses referenced_types)

/-! ## Orchestrator (`extract_type_info_by_file` in `analysis/mod.rs`) -/

/-- Cargo metadata as `load_cargo_metadata` provides it: crate name to
(version, enabled features). -/
abbrev CargoInfoMap := List (String × String × List String)

/-- The metadata value built inside `register_crate_metadata`: version
and features from the workspace manifest when known, else
none / empty. -/
def mkCrateMetadata (cargo_info : CargoInfoMap) (display_name : String)
    (is_local : Bool) : CrateMetadata :=
  match cargo_info.lookup display_name with
  | some vf =>
      { name := display_name, version := some vf.1, features := vf.2
        localFlag := is_local }
  | none =>
      { name := display_name, version := none, features := []
        localFlag := is_local }

/-- Model of `register_crate_metadata` from `analysis/mod.rs`:
`entry(name).or_insert_with(...)` — a name already present is left
untouched, a new name gets a freshly built metadata entry. -/
def register_crate_metadata (cargo_info : CargoInfoMap)
    (display_name : String) (is_local : Bool)
    (crate_metadata_map : List (String × CrateMetadata)) :
    List (String × CrateMetadata) :=
  if (crate_metadata_map.lookup display_name).isSome then crate_metadata_map
  else
    crate_metadata_map ++
      [(display_name, mkCrateMetadata cargo_info display_name is_local)]

/-- A resolved crate as the semantic engine presents it: optional
display name, origin classification, and its root module (use trees of
the root file plus direct declarations). -/
structure HirCrate where
  display_name : Option String
  is_local : Bool
  root_uses : List UseTree
  root_decls : List Decl

/-- The display string used in progress and error messages
(`display_name(db).map(to_string).unwrap_or("<unnamed>")`). -/
def crateDisplay (k : HirCrate) : String := k.display_name.getD "<unnamed>"

/-- Standard-library crates excluded from external analysis
(`STD_CRATES` in `analysis/mod.rs`). -/
def STD_CRATES : List String := ["std", "core", "alloc", "proc_macro", "test"]

/-- Model of `process_crate` from `analysis/mod.rs`: register the
metadata of the crate; for a local crate, scan the imports of the module
tree; then walk the declarations of the root module with
`is_external = !is_local`. -/
def process_crate (cargo_info : CargoInfoMap) (project_dir : List String)
    (is_local : Bool) (krate : HirCrate) (st : ExtractionState) :
    ExtractionState :=
  let st1 := { st with crate_metadata :=
      (register_crate_metadata cargo_info (crateDisplay krate) is_local
        st.crate_metadata) }
  let st2 :=
    if is_local then
      { st1 with referenced_types :=
          (extract_module_imports krate.root_uses krate.root_decls
            st1.referenced_types) }
    else st1
  walkDecls project_dir (!is_local) st2 krate.root_decls

/-- The whole analyzable world: the crates known to the engine, the
workspace manifest metadata, and the project root directory. -/
structure World where
  crates : List HirCrate
  cargo_info : CargoInfoMap
  project_dir : List String

/-- The local-crate partition (`krate.origin(db).is_local()`). -/
def localCrates (w : World) : List HirCrate :=
  w.crates.filter (fun k => k.is_local)

/-- The external-crate partition: not local and not one of the built-in
standard-library crates (matched against the defaulted display name). -/
def externalCrates (w : World) : List HirCrate :=
  w.crates.filter
    (fun k => !(k.is_local || STD_CRATES.contains (k.display_name.getD "")))

/-- The per-crate phase loop of `extract_type_info_by_file`: process
each crate in order; a failing crate aborts the loop with its error
wrapped in the crate-identifying context message (the `with_context(...)?`
pattern; the model renders the anyhow context chain as
`context ++ ": " ++ cause`). -/
def runPhase (wrapMsg : HirCrate → String)
    (process : HirCrate → ExtractionState → Except String ExtractionState) :
    List HirCrate → ExtractionState → Except String ExtractionState
  | [], st => .ok st
  | k :: ks, st =>
      match process k st with
      | .ok st1 => runPhase wrapMsg process ks st1
      | .error e => .error (wrapMsg k ++ ": " ++ e)

/-- The Phase 1 context message (the Rust format additionally wraps the
crate name in single quotes; the quoting is elided in the model). -/
def localCrateContext (k : HirCrate) : String :=
  "Failed to process local crate " ++ crateDisplay k

/-- The Phase 2 context message. -/
def externalCrateContext (k : HirCrate) : String :=
  "Failed to process external crate " ++ crateDisplay k

/-- Phase 1 of `extract_type_info_by_file` as a total fold: process all
local crates from the fresh state (the concrete `process_crate` cannot
fail, so the fold and the `Except` loop agree; see
`extract_type_info_by_file_eq`). -/
def phase1Run (w : World) : ExtractionState :=
  (localCrates w).foldl
    (fun st k => process_crate w.cargo_info w.project_dir true k st)
    ExtractionState.initial

/-- Phase 2 of `extract_type_info_by_file` as a total fold over the
external crates, continuing from the Phase 1 state. -/
def phase2From (w : World) (st : ExtractionState) : ExtractionState :=
  (externalCrates w).foldl
    (fun st k => process_crate w.cargo_info w.project_dir false k st)
    st

/-- The final extraction state of a run. -/
def extractRun (w : World) : ExtractionState := phase2From w (phase1Run w)

/-- Model of `extract_type_info_by_file` from `analysis/mod.rs`: Phase 1
over the local crates, Phase 2 over the external crates, then the
assembled output (the file map and the metadata values). -/
def extract_type_info_by_file (w : World) :
    Except String (FileMap × List CrateMetadata) := do
  let st1 ← runPhase localCrateContext
    (fun k st => .ok (process_crate w.cargo_info w.project_dir true k st))
    (localCrates w) ExtractionState.initial
  let st2 ← runPhase externalCrateContext
    (fun k st => .ok (process_crate w.cargo_info w.project_dir false k st))
    (externalCrates w) st1
  return (st2.file_infos, st2.crate_metadata.map (fun e => e.2))

/-- All items of the output map, in file order. -/
def itemsOfMap (fm : FileMap) : List ItemInfo :=
  (fm.map (fun e => e.2.items)).flatten

/-- All items of an extraction state. -/
def itemsOfState (st : ExtractionState) : List ItemInfo :=
  itemsOfMap st.file_infos

/-- An arbitrary run of crate-metadata registrations: fold
`register_crate_metadata` over a sequence of (display name, is_local)
registrations, starting from the empty map. The registrations performed
by an extraction run are the local crates followed by the external
crates (see `c7_metadata_dedup_first_writer_wins`). -/
def runRegs (cargo_info : CargoInfoMap) (regs : List (String × Bool)) :
    List (String × CrateMetadata) :=
  regs.foldl (fun m r => register_crate_metadata cargo_info r.1 r.2 m) []

/-- The external-filtering-soundness property exactly as claimed: every
item that the output of a run contains beyond the Phase 1 (local) items
is named by the reference set as computed from local import statements
and local type-position scans alone, i.e. the reference set at the end
of Phase 1. -/
def ExternalFilteringSound (w : World) : Prop :=
  ∀ it : ItemInfo,
    it ∈ itemsOfState (extractRun w) →
    it ∉ itemsOfState (phase1Run w) →
    it.itemName ∈ (phase1Run w).referenced_types

/-- A minimal world refuting `ExternalFilteringSound`: the local crate
imports `Serialize` from the external crate; there, struct `Serialize`
has a field of type `Helper`, and `Helper` is a second struct of the
same crate whose name never occurs anywhere in the local crate. During
Phase 2 the extraction of `Serialize` records `Helper` into the shared
reference set, so the filter then lets `Helper` through. -/
def twoCrateWorld : World :=
  { crates :=
      [{ display_name := some "app"
         is_local := true
         root_uses := [⟨["serde", "Serialize"], []⟩]
         root_decls :=
           [.structDecl ⟨"Point", "pid", [("x", "f64")],
              some ["home", "app", "src", "lib.rs"]⟩] },
       { display_name := some "serde"
         is_local := false
         root_uses := []
         root_decls :=
           [.structDecl ⟨"Serialize", "sid", [("h", "Helper")],
              some ["reg", "serde", "src", "lib.rs"]⟩,
            .structDecl ⟨"Helper", "hid", [],
              some ["reg", "serde", "src", "lib.rs"]⟩] }]
    cargo_info := []
    project_dir := ["home", "app"] }

/-! # Theorems

First the shared helper lemmas, then one theorem per claim (with a
witness for the theorems that carry hypotheses). -/

/-- Membership after folding conditional capitalized insertion over a
token list: exactly the old members plus the capitalized tokens. -/
theorem mem_foldl_insertCap (ws : List String) (refs : List String) (w : String) :
    w ∈ ws.foldl (fun r x => if isCapToken x then r.insert x else r) refs ↔
      w ∈ refs ∨ (w ∈ ws ∧ isCapToken w = true) := by
  induction ws generalizing refs with
  | nil => simp
  | cons x xs ih =>
      simp only [List.foldl_cons, ih, List.mem_cons]
      by_cases hx : isCapToken x
      · by_cases hw : w = x
        · subst hw; simp [hx, List.mem_insert_iff]
        · simp [hx, hw, List.mem_insert_iff]
      · by_cases hw : w = x
        · subst hw; simp [hx]
        · simp [hx, hw]

/-- The reference set only grows under `extract_type_names`. -/
theorem extract_type_names_subset (s : String) (refs : List String) :
    refs ⊆ extract_type_names s refs := fun _ hx =>
  (mem_foldl_insertCap (tokensOf s) refs _).mpr (Or.inl hx)

/-- The skip rule of the `ty` field of a serialized local. -/
theorem lookup_ty_serializeLocalVar (l : LocalVarInfo) :
    (serializeLocalVarFields l).lookup "ty"
      = if l.ty = INFERRED_TYPE then none else some (.str l.ty) := by
  by_cases h : l.ty = INFERRED_TYPE <;>
    cases hn : l.name <;> simp [serializeLocalVarFields, h, hn, List.lookup]

/-- C5 (confirmed): `extract_type_names` splits its input on every
character that is neither alphanumeric nor underscore and inserts into
the reference set exactly the resulting tokens that are non-empty and
start with an uppercase letter; it never removes an element, so the set
after the call contains the set before. -/
theorem c5_reference_collector_tokenization (s : String) (refs : List String)
    (w : String) :
    (w ∈ refs → w ∈ extract_type_names s refs)
    ∧ (w ∈ extract_type_names s refs ↔
        w ∈ refs ∨ (w ∈ tokensOf s ∧ w ≠ "" ∧ w.front.isUpper = true)) := by
  have hchar : (isCapToken w = true) ↔ (w ≠ "" ∧ w.front.isUpper = true) := by
    simp [isCapToken, ← String.isEmpty_iff, Bool.not_eq_true]
  refine ⟨fun hw => extract_type_names_subset s refs hw, ?_⟩
  rw [extract_type_names, mem_foldl_insertCap, hchar]

/-- Witness for C5: the prior member `Bar` survives the call, and the
freshly scanned capitalized token `Foo` of `Vec<Foo>` is inserted. -/
theorem c5_reference_collector_tokenization_witness :
    "Bar" ∈ extract_type_names "Vec<Foo>" ["Bar"]
    ∧ "Foo" ∈ extract_type_names "Vec<Foo>" ["Bar"] :=
  ⟨(c5_reference_collector_tokenization "Vec<Foo>" ["Bar"] "Bar").1 (by decide),
   (c5_reference_collector_tokenization "Vec<Foo>" ["Bar"] "Foo").2.mpr
     (Or.inr (by decide))⟩

/-- C10 (confirmed): an enum serializes its `variants` field even when
the variant list is empty, while the other list-valued fields —
`params` of a function, `fields` of a struct, `items` of a trait,
`locals` and `closures` of a function body — are omitted from the
serialized object when empty. -/
theorem c10_enum_variants_always_serialized (name id ret : String)
    (b : Option FunctionBodyInfo) (ls : List LocalVarInfo)
    (cs : List ClosureInfo) :
    ((serializeItemFields (.enumInfo name id [])).lookup "variants"
        = some (.arr []))
    ∧ ((serializeItemFields (.function name id [] ret b)).lookup "params" = none)
    ∧ ((serializeItemFields (.structInfo name id [])).lookup "fields" = none)
    ∧ ((serializeItemFields (.traitInfo name id [])).lookup "items" = none)
    ∧ ((serializeBodyFields ⟨[], cs⟩).lookup "locals" = none)
    ∧ ((serializeBodyFields ⟨ls, []⟩).lookup "closures" = none) := by
  refine ⟨?_, ?_, ?_, ?_, ?_, ?_⟩
  · simp [serializeItemFields, List.lookup]
  · by_cases hb : skip_if_empty_body b <;>
      simp [serializeItemFields, hb, List.lookup]
  · simp [serializeItemFields, List.lookup]
  · simp [serializeItemFields, List.lookup]
  · by_cases hc : cs.isEmpty <;> simp [serializeBodyFields, hc, List.lookup]
  · by_cases hl : ls.isEmpty <;> simp [serializeBodyFields, hl, List.lookup]

/-- C6 (confirmed): at every serialization position the extractor can
fill with the `"<inferred>"` sentinel — the `ty` of a parameter, the
`ty` of a local, the `ret` of a closure — the field is present exactly when the value
differs from the sentinel (so no serialized field ever carries the
sentinel as its value), and closure parameters are serialized
through the same skip-ruled parameter serializer. -/
theorem c6_sentinel_omission_universal (p : ParamInfo) (l : LocalVarInfo)
    (c : ClosureInfo) :
    ((serializeParamFields p).lookup "ty"
        = if p.ty = INFERRED_TYPE then none else some (.str p.ty))
    ∧ ((serializeLocalVarFields l).lookup "ty"
        = if l.ty = INFERRED_TYPE then none else some (.str l.ty))
    ∧ ((serializeClosureFields c).lookup "ret"
        = if c.return_type = INFERRED_TYPE then none
          else some (.str c.return_type))
    ∧ ((serializeClosureFields c).lookup "params"
        = if c.params.isEmpty then none
          else some (.arr (c.params.map (fun q => .obj (serializeParamFields q))))) := by
  refine ⟨?_, lookup_ty_serializeLocalVar l, ?_, ?_⟩
  · by_cases h : p.ty = INFERRED_TYPE <;>
      cases hr : p.type_ref <;> simp [serializeParamFields, h, hr, List.lookup]
  · by_cases h : c.return_type = INFERRED_TYPE <;>
      by_cases hp : c.params.isEmpty <;>
        simp [serializeClosureFields, h, hp, List.lookup]
  · by_cases h : c.return_type = INFERRED_TYPE <;>
      by_cases hp : c.params.isEmpty <;>
        simp [serializeClosureFields, h, hp, List.lookup]

/-- C4 (confirmed): a local binding extracted without an explicit type
annotation carries the sentinel type and serializes with no `ty` field;
one with an explicit annotation serializes a `ty` field whose value is
the literal annotation text. The hypothesis `hwf` records that actual
Rust type-annotation source text can never be the sentinel string
`"<inferred>"`. -/
theorem c4_local_type_sentinel (stx : LetStmt) (idx : Nat) (l : LocalVarInfo)
    (hwf : stx.ty ≠ some INFERRED_TYPE)
    (h : extract_local_var stx idx = some l) :
    l.ty = stx.ty.getD INFERRED_TYPE
    ∧ (serializeLocalVarFields l).lookup "ty" = stx.ty.map Json.str := by
  cases hp : stx.pat with
  | none => simp [extract_local_var, hp] at h
  | some p =>
      simp only [extract_local_var, hp, Option.some.injEq] at h
      subst h
      refine ⟨rfl, ?_⟩
      rw [lookup_ty_serializeLocalVar]
      cases hty : stx.ty with
      | none => simp [hty]
      | some t =>
          have ht : t ≠ INFERRED_TYPE := by
            intro he; exact hwf (by rw [hty, he])
          simp [hty, ht]

/-- Witness for C4 at a concrete annotated `let mut x: u32`. -/
theorem c4_local_type_sentinel_witness :
    (⟨some "x", "u32", 0, true⟩ : LocalVarInfo).ty
        = (some "u32").getD INFERRED_TYPE
    ∧ (serializeLocalVarFields ⟨some "x", "u32", 0, true⟩).lookup "ty"
        = (some "u32").map Json.str :=
  c4_local_type_sentinel ⟨some (.identPat true (some "x")), some "u32"⟩ 0 _
    (by decide) rfl

/-- C8 (confirmed): the function extractor stores `None` as the body of
every externally extracted function, and invokes the Function Body
Extractor exactly when `is_external` is false. -/
theorem c8_external_function_has_no_body (refs : List String) (f : FnDef) :
    ((FunctionExtractor.extract refs f true).2.bodyField = none)
    ∧ ((FunctionExtractor.extract refs f false).2.bodyField
        = extract_function_body f) := by
  constructor <;> simp [FunctionExtractor.extract, ItemInfo.bodyField]

/-- C2 (confirmed): `should_extract_def` accepts everything in the
local phase; in the external phase it accepts every submodule, rejects
a non-module declaration with no display name, and otherwise accepts
exactly the declarations whose display name is in the reference set at
the time of the call. -/
theorem c2_reachability_filter_contract (refs : List String) (d : Decl) :
    (should_extract_def refs d false = true)
    ∧ (d.isModule = true → should_extract_def refs d true = true)
    ∧ (d.isModule = false → d.display_name = none →
        should_extract_def refs d true = false)
    ∧ (∀ n, d.display_name = some n →
        (should_extract_def refs d true = true ↔ n ∈ refs)) := by
  refine ⟨by simp [should_extract_def], ?_, ?_, ?_⟩
  · intro hm; simp [should_extract_def, hm]
  · intro hm hd; simp [should_extract_def, hm, hd]
  · intro n hd
    have hm : d.isModule = false := by
      cases d <;> simp_all [Decl.display_name, Decl.isModule]
    simp [should_extract_def, hm, hd]

/-- Witness for C2 on concrete declarations: a local-phase acceptance,
an external-phase module acceptance, an external-phase rejection of a
nameless declaration, and an external-phase acceptance of a referenced
struct. -/
theorem c2_reachability_filter_contract_witness :
    should_extract_def ["Foo"]
        (.structDecl ⟨"Foo", "sid", [], some ["a.rs"]⟩) false = true
    ∧ should_extract_def ["Foo"] (.module [] []) true = true
    ∧ should_extract_def ["Foo"] .otherDecl true = false
    ∧ should_extract_def ["Foo"]
        (.structDecl ⟨"Foo", "sid", [], some ["a.rs"]⟩) true = true :=
  ⟨(c2_reachability_filter_contract ["Foo"] _).1,
   (c2_reachability_filter_contract ["Foo"] (.module [] [])).2.1 rfl,
   (c2_reachability_filter_contract ["Foo"] .otherDecl).2.2.1 rfl rfl,
   ((c2_reachability_filter_contract ["Foo"]
       (.structDecl ⟨"Foo", "sid", [], some ["a.rs"]⟩)).2.2.2 "Foo" rfl).mpr
     (by decide)⟩

/-- Stripping an actual prefix succeeds with the remainder. -/
theorem stripPrefixOf_append (pr rest : List String) :
    stripPrefixOf (pr ++ rest) pr = some rest := by
  induction pr with
  | nil => cases rest <;> simp [stripPrefixOf]
  | cons y ys ih => simp [stripPrefixOf, ih]

/-- A successful strip exhibits the path as base ++ remainder. -/
theorem stripPrefixOf_eq_some (fp pr rest : List String)
    (h : stripPrefixOf fp pr = some rest) : fp = pr ++ rest := by
  induction pr generalizing fp with
  | nil =>
      simp only [stripPrefixOf, Option.some.injEq] at h
      simp [h]
  | cons y ys ih =>
      cases fp with
      | nil => simp [stripPrefixOf] at h
      | cons x xs =>
          simp only [stripPrefixOf] at h
          by_cases hxy : x = y
          · subst hxy
            simp only [if_pos rfl] at h
            simp [ih xs h]
          · simp [hxy] at h

/-- A predicate false everywhere has no position. -/
theorem position_eq_none {α : Type} (p : α → Bool) (l : List α)
    (h : ∀ x ∈ l, p x = false) : position p l = none := by
  induction l with
  | nil => rfl
  | cons x xs ih =>
      simp [position, h x (List.mem_cons_self x xs),
        ih (fun y hy => h y (List.mem_cons_of_mem x hy))]

/-- The first position after a prefix of non-matches is the prefix
length. -/
theorem position_append_cons {α : Type} (p : α → Bool) (a : List α) (b : α)
    (l : List α) (ha : ∀ x ∈ a, p x = false) (hb : p b = true) :
    position p (a ++ b :: l) = some a.length := by
  induction a with
  | nil => simp [position, hb]
  | cons x xs ih =>
      simp [position, ha x (List.mem_cons_self x xs),
        ih (fun y hy => ha y (List.mem_cons_of_mem x hy))]

/-- C3 (confirmed): for a non-external path the normalizer strips
`project_dir` as a prefix and falls back to the unmodified path when
the path is not under it; for an external path it returns the suffix
starting one component before the first `src` component whenever that
component exists at an index greater than zero, and otherwise the
unmodified path. -/
theorem c3_path_normalizer_contract (fp pr : List String) :
    (∀ rest, fp = pr ++ rest → normalize_file_path fp pr false = rest)
    ∧ ((∀ rest, fp ≠ pr ++ rest) → normalize_file_path fp pr false = fp)
    ∧ (∀ a b rest, fp = a ++ b :: "src" :: rest → "src" ∉ a → b ≠ "src" →
        normalize_file_path fp pr true = b :: "src" :: rest)
    ∧ (∀ rest, fp = "src" :: rest → normalize_file_path fp pr true = fp)
    ∧ ("src" ∉ fp → normalize_file_path fp pr true = fp) := by
  refine ⟨?_, ?_, ?_, ?_, ?_⟩
  · intro rest h; subst h
    simp [normalize_file_path, stripPrefixOf_append]
  · intro h
    have hn : stripPrefixOf fp pr = none := by
      cases hs : stripPrefixOf fp pr with
      | none => rfl
      | some r => exact absurd (stripPrefixOf_eq_some fp pr r hs) (h r)
    simp [normalize_file_path, hn]
  · intro a b rest hfp ha hb
    subst hfp
    have hpos : position (fun c => c == "src") (a ++ b :: "src" :: rest)
        = some (a.length + 1) := by
      have hstep := position_append_cons (fun c => c == "src") (a ++ [b]) "src"
        rest
        (by
          intro x hx
          rcases List.mem_append.mp hx with h1 | h1
          · exact beq_eq_false_iff_ne.mpr (fun he => ha (he ▸ h1))
          · have : x = b := by simpa using h1
            subst this
            exact beq_eq_false_iff_ne.mpr hb)
        (by simp)
      simpa [List.append_assoc] using hstep
    simp only [normalize_file_path, hpos, Nat.zero_lt_succ, if_true,
      Nat.add_sub_cancel, Bool.not_true]
    simp [List.drop_left a (b :: "src" :: rest)]
  · intro rest h; subst h
    simp [normalize_file_path, position]
  · intro h
    have hpos : position (fun c => c == "src") fp = none :=
      position_eq_none _ _
        (fun x hx => beq_eq_false_iff_ne.mpr (fun he => h (he ▸ hx)))
    simp [normalize_file_path, hpos]

/-- Witness for C3 at concrete local and external paths. -/
theorem c3_path_normalizer_contract_witness :
    normalize_file_path ["home", "proj", "lib.rs"] ["home", "proj"] false
        = ["lib.rs"]
    ∧ normalize_file_path ["reg", "serde", "src", "lib.rs"] ["home"] true
        = ["serde", "src", "lib.rs"] :=
  ⟨(c3_path_normalizer_contract _ _).1 ["lib.rs"] rfl,
   (c3_path_normalizer_contract _ _).2.2.1 ["reg"] "serde" ["lib.rs"] rfl
     (by decide) (by decide)⟩

/-- Association lookup distributes over append. -/
theorem lookup_append {β : Type} (k : String) (l1 l2 : List (String × β)) :
    (l1 ++ l2).lookup k =
      match l1.lookup k with
      | some v => some v
      | none => l2.lookup k := by
  induction l1 with
  | nil => simp
  | cons e es ih =>
      obtain ⟨a, b⟩ := e
      by_cases h : (k == a) = true <;> simp [List.lookup, h, ih]

/-- A key is absent from an association list exactly when lookup fails. -/
theorem lookup_none_iff_keys {β : Type} (k : String) (m : List (String × β)) :
    m.lookup k = none ↔ k ∉ m.map (fun e => e.1) := by
  induction m with
  | nil => simp
  | cons e es ih =>
      obtain ⟨a, b⟩ := e
      by_cases h : k = a
      · subst h; simp [List.lookup]
      · simp [List.lookup, beq_eq_false_iff_ne.mpr h, ih, h]

/-- The reachability filter always accepts a submodule, in both phases. -/
theorem should_extract_module (refs : List String) (us : List UseTree)
    (ds : List Decl) (b : Bool) :
    should_extract_def refs (.module us ds) b = true := by
  cases b <;> simp [should_extract_def, Decl.isModule]

/-- Walking a submodule declaration recurses into its declarations. -/
theorem walkDecl_module (pd : List String) (b : Bool) (st : ExtractionState)
    (us : List UseTree) (ds : List Decl) :
    walkDecl pd b st (.module us ds) = walkDecls pd b st ds := by
  simp [walkDecl, should_extract_module]

/-- Walking a non-module declaration filters, then extracts via
`walkItem`. -/
theorem walkDecl_eq_walkItem (pd : List String) (b : Bool)
    (st : ExtractionState) (d : Decl) (hm : d.isModule = false) :
    walkDecl pd b st d =
      if should_extract_def st.referenced_types d b then walkItem pd b st d
      else st := by
  unfold walkDecl
  by_cases hf : should_extract_def st.referenced_types d b
  · simp only [hf, Bool.not_true, if_true, Bool.false_eq_true, if_false]
    cases d <;> first
      | rfl
      | (simp [Decl.isModule] at hm)
  · simp [hf]

/-- `walkItem` never touches the crate-metadata map. -/
theorem walkItem_metadata (pd : List String) (b : Bool) (st : ExtractionState)
    (d : Decl) : (walkItem pd b st d).crate_metadata = st.crate_metadata := by
  unfold walkItem
  cases hf : d.fileOf <;> simp [hf]

/-- Walking a non-module declaration never touches the metadata map. -/
theorem walkDecl_item_metadata (pd : List String) (b : Bool)
    (st : ExtractionState) (d : Decl) (hm : d.isModule = false) :
    (walkDecl pd b st d).crate_metadata = st.crate_metadata := by
  rw [walkDecl_eq_walkItem pd b st d hm]
  by_cases hf : should_extract_def st.referenced_types d b <;>
    simp [hf, walkItem_metadata]

mutual

/-- The module walker never touches the crate-metadata map
(single-declaration form). -/
theorem walkDecl_metadata (pd : List String) (b : Bool) (st : ExtractionState) :
    (d : Decl) → (walkDecl pd b st d).crate_metadata = st.crate_metadata
  | .module us ds => by
      rw [walkDecl_module]
      exact walkDecls_metadata pd b st ds
  | .functionDecl f => walkDecl_item_metadata pd b st _ rfl
  | .structDecl s => walkDecl_item_metadata pd b st _ rfl
  | .enumDecl e => walkDecl_item_metadata pd b st _ rfl
  | .unionDecl u => walkDecl_item_metadata pd b st _ rfl
  | .traitDecl t => walkDecl_item_metadata pd b st _ rfl
  | .aliasDecl a => walkDecl_item_metadata pd b st _ rfl
  | .constDecl c => walkDecl_item_metadata pd b st _ rfl
  | .staticDecl s => walkDecl_item_metadata pd b st _ rfl
  | .otherDecl => walkDecl_item_metadata pd b st _ rfl

/-- The module walker never touches the crate-metadata map
(declaration-list form). -/
theorem walkDecls_metadata (pd : List String) (b : Bool) :
    (st : ExtractionState) → (ds : List Decl) →
      (walkDecls pd b st ds).crate_metadata = st.crate_metadata
  | _, [] => by simp [walkDecls]
  | st, d :: ds => by
      simp only [walkDecls]
      rw [walkDecls_metadata pd b (walkDecl pd b st d) ds,
        walkDecl_metadata pd b st d]

end

/-- Processing one crate changes the metadata map exactly by one
registration of the display name of the crate. -/
theorem process_crate_metadata (c : CargoInfoMap) (pd : List String)
    (il : Bool) (k : HirCrate) (st : ExtractionState) :
    (process_crate c pd il k st).crate_metadata
      = register_crate_metadata c (crateDisplay k) il st.crate_metadata := by
  unfold process_crate
  cases il <;> simp [walkDecls_metadata]

/-- The crate fold of a phase registers exactly the crate display names in
processing order. -/
theorem crateFold_metadata (c : CargoInfoMap) (pd : List String) (il : Bool) :
    (ks : List HirCrate) → (st : ExtractionState) →
    ((ks.foldl (fun st k => process_crate c pd il k st) st).crate_metadata
      = ks.foldl (fun m k => register_crate_metadata c (crateDisplay k) il m)
          st.crate_metadata)
  | [], _ => rfl
  | k :: ks, st => by
      rw [List.foldl_cons, List.foldl_cons,
        crateFold_metadata c pd il ks (process_crate c pd il k st),
        process_crate_metadata]

/-- A registration run keeps an already-present entry unchanged. -/
theorem regs_fold_lookup_some (c : CargoInfoMap) (n : String)
    (v : CrateMetadata) :
    (regs : List (String × Bool)) → (m : List (String × CrateMetadata)) →
    m.lookup n = some v →
    ((regs.foldl (fun m r => register_crate_metadata c r.1 r.2 m) m).lookup n
      = some v)
  | [], _, h => h
  | r :: rs, m, h => by
      rw [List.foldl_cons]
      apply regs_fold_lookup_some c n v rs
      unfold register_crate_metadata
      by_cases hm : (m.lookup r.1).isSome = true
      · simpa [hm] using h
      · rw [if_neg (by simp [hm]), lookup_append, h]

/-- A registration run fills an absent entry from the first
registration of that name. -/
theorem regs_fold_lookup_none (c : CargoInfoMap) (n : String) :
    (regs : List (String × Bool)) → (m : List (String × CrateMetadata)) →
    m.lookup n = none →
    ((regs.foldl (fun m r => register_crate_metadata c r.1 r.2 m) m).lookup n
      = (regs.find? (fun r => r.1 == n)).map
          (fun r => mkCrateMetadata c r.1 r.2))
  | [], m, h => by simpa using h
  | r :: rs, m, h => by
      rw [List.foldl_cons]
      by_cases hrn : (r.1 == n) = true
      · have hr1 : r.1 = n := by simpa using hrn
        subst hr1
        have hm : m.lookup r.1 = none := h
        rw [regs_fold_lookup_some c r.1 (mkCrateMetadata c r.1 r.2) rs _ ?_]
        · simp [List.find?]
        · unfold register_crate_metadata
          rw [if_neg (by simp [hm]), lookup_append, h]
          simp [List.lookup]
      · have hne : (n == r.1) = false :=
          beq_eq_false_iff_ne.mpr (fun he => by simp [he] at hrn)
        have hstep : (register_crate_metadata c r.1 r.2 m).lookup n = none := by
          unfold register_crate_metadata
          by_cases hm : (m.lookup r.1).isSome = true
          · simp [hm, h]
          · rw [if_neg (by simp [hm]), lookup_append, h]
            simp [List.lookup, hne]
        rw [regs_fold_lookup_none c n rs _ hstep]
        simp [List.find?, hrn]

/-- A registration run keeps the key list duplicate-free. -/
theorem regs_fold_keys_nodup (c : CargoInfoMap) :
    (regs : List (String × Bool)) → (m : List (String × CrateMetadata)) →
    (m.map (fun e => e.1)).Nodup →
    (((regs.foldl (fun m r => register_crate_metadata c r.1 r.2 m) m).map
        (fun e => e.1)).Nodup)
  | [], _, h => h
  | r :: rs, m, h => by
      rw [List.foldl_cons]
      apply regs_fold_keys_nodup c rs
      unfold register_crate_metadata
      by_cases hm : (m.lookup r.1).isSome = true
      · simpa [hm] using h
      · rw [if_neg (by simp [hm])]
        have hnone : m.lookup r.1 = none := by
          cases hc : m.lookup r.1
          · rfl
          · simp [hc] at hm
        have hr : r.1 ∉ m.map (fun e => e.1) :=
          (lookup_none_iff_keys r.1 m).mp hnone
        simp [List.nodup_append, h, hr]

/-- C7 (confirmed): over any sequence of crate registrations the
metadata map has at most one entry per display name, the entry for a
name is the one produced by the first registration of that name (later
registrations, including from the other phase, never overwrite it), and
the metadata map of an actual extraction run is exactly such a
registration run over the local crates followed by the external
crates. -/
theorem c7_metadata_dedup_first_writer_wins (w : World)
    (cargo_info : CargoInfoMap) (regs : List (String × Bool)) (n : String) :
    ((runRegs cargo_info regs).map (fun e => e.1)).Nodup
    ∧ ((runRegs cargo_info regs).lookup n
        = (regs.find? (fun r => r.1 == n)).map
            (fun r => mkCrateMetadata cargo_info r.1 r.2))
    ∧ ((extractRun w).crate_metadata
        = runRegs w.cargo_info
            ((localCrates w).map (fun k => (crateDisplay k, true))
              ++ (externalCrates w).map (fun k => (crateDisplay k, false)))) := by
  refine ⟨regs_fold_keys_nodup cargo_info regs [] (by simp),
    regs_fold_lookup_none cargo_info n regs [] rfl, ?_⟩
  unfold extractRun phase2From phase1Run runRegs
  rw [crateFold_metadata, crateFold_metadata, List.foldl_append,
    List.foldl_map, List.foldl_map]
  rfl

/-- A phase loop whose body cannot fail is the plain fold. -/
theorem runPhase_ok_total (wrapMsg : HirCrate → String)
    (f : HirCrate → ExtractionState → ExtractionState) :
    (ks : List HirCrate) → (st : ExtractionState) →
    runPhase wrapMsg (fun k st => .ok (f k st)) ks st
      = .ok (ks.foldl (fun st k => f k st) st)
  | [], _ => rfl
  | k :: ks, st => by
      simp only [runPhase, List.foldl_cons]
      exact runPhase_ok_total wrapMsg f ks (f k st)

/-- The concrete per-crate processing of this codebase never
constructs an error, so the Except-typed orchestrator returns exactly
the assembled total run. -/
theorem extract_type_info_by_file_eq (w : World) :
    extract_type_info_by_file w
      = .ok ((extractRun w).file_infos,
          (extractRun w).crate_metadata.map (fun e => e.2)) := by
  unfold extract_type_info_by_file extractRun phase2From phase1Run
  rw [runPhase_ok_total]
  show Except.bind _ _ = _
  simp only [Except.bind]
  rw [runPhase_ok_total]
  rfl

/-- C9 (confirmed): in the per-crate phase loop, the first crate whose
processing returns an error makes the whole loop return that error
wrapped with the crate-identifying context, regardless of how many
crates would have followed — the run is aborted and no output is
produced. -/
theorem c9_per_crate_failure_aborts (wrapMsg : HirCrate → String)
    (process : HirCrate → ExtractionState → Except String ExtractionState)
    (ks1 ks2 : List HirCrate) (k : HirCrate) (st st1 : ExtractionState)
    (e : String)
    (hok : runPhase wrapMsg process ks1 st = .ok st1)
    (herr : process k st1 = .error e) :
    runPhase wrapMsg process (ks1 ++ k :: ks2) st
      = .error (wrapMsg k ++ ": " ++ e) := by
  induction ks1 generalizing st with
  | nil =>
      simp only [runPhase, Except.ok.injEq] at hok
      subst hok
      simp [runPhase, herr]
  | cons k0 ks ih =>
      simp only [List.cons_append, runPhase] at hok ⊢
      cases hp : process k0 st with
      | ok st2 =>
          rw [hp] at hok
          exact ih st2 hok
      | error e0 =>
          rw [hp] at hok
          simp at hok

/-- Witness for C9: a one-crate phase whose processing fails aborts
with the wrapped error. -/
theorem c9_per_crate_failure_aborts_witness :
    runPhase externalCrateContext (fun _ _ => .error "boom")
        ([] ++ (⟨some "serde", false, [], []⟩ : HirCrate) :: [])
        ExtractionState.initial
      = .error (externalCrateContext ⟨some "serde", false, [], []⟩
          ++ ": " ++ "boom") :=
  c9_per_crate_failure_aborts externalCrateContext (fun _ _ => .error "boom")
    [] [] _ ExtractionState.initial ExtractionState.initial "boom" rfl rfl

/-! ## Reference-set growth and item provenance through the walker -/

/-- A reference-threading fold only grows its first component. -/
theorem foldl_pair_fst_subset {α β : Type}
    (g : (List String × List β) → α → (List String × List β))
    (hg : ∀ acc a, acc.1 ⊆ (g acc a).1) :
    ∀ (l : List α) (acc : List String × List β), acc.1 ⊆ (l.foldl g acc).1 := by
  intro l
  induction l with
  | nil => exact fun acc => List.Subset.refl _
  | cons a as ih =>
      exact fun acc => List.Subset.trans (hg acc a) (ih (g acc a))

/-- Parameter extraction only grows the reference set. -/
theorem extract_function_params_subset (refs : List String)
    (ps : List FnParam) : refs ⊆ (extract_function_params refs ps).1 :=
  foldl_pair_fst_subset _
    (fun acc ip => extract_type_names_subset ip.2.ty acc.1) ps.enum (refs, [])

/-- Field extraction only grows the reference set. -/
theorem extract_struct_fields_subset (refs : List String)
    (fs : List (String × String)) : refs ⊆ (extract_struct_fields refs fs).1 :=
  foldl_pair_fst_subset _
    (fun acc f => extract_type_names_subset f.2 acc.1) fs (refs, [])

/-- Variant extraction only grows the reference set. -/
theorem extract_enum_variants_subset (refs : List String)
    (vs : List (String × List (String × String))) :
    refs ⊆ (extract_enum_variants refs vs).1 := by
  unfold extract_enum_variants
  exact foldl_pair_fst_subset
    (fun (acc : List String × List VariantInfo) v =>
      let fr := extract_struct_fields acc.1 v.2
      (fr.1, acc.2 ++ [VariantInfo.mk v.1 fr.2]))
    (fun acc v => extract_struct_fields_subset acc.1 v.2) vs (refs, [])

/-- Trait-item extraction only grows the reference set. -/
theorem extract_trait_items_subset (refs : List String)
    (its : List TraitItemDef) : refs ⊆ (extract_trait_items refs its).1 := by
  unfold extract_trait_items
  exact foldl_pair_fst_subset _
    (fun acc it => by
      cases it with
      | function name ps ret =>
          exact List.Subset.trans (extract_type_names_subset ret acc.1)
            (extract_function_params_subset _ ps)
      | typeAlias name => exact List.Subset.refl _
      | constItem name ty => exact extract_type_names_subset ty acc.1)
    its (refs, [])

/-- Item extraction only grows the reference set. -/
theorem extract_item_subset (refs : List String) (d : Decl) (b : Bool) :
    refs ⊆ (extract_item refs d b).1 := by
  cases d with
  | module us ds => exact List.Subset.refl _
  | functionDecl f =>
      exact List.Subset.trans (extract_type_names_subset f.ret refs)
        (extract_function_params_subset _ f.params)
  | structDecl s => exact extract_struct_fields_subset refs s.fields
  | enumDecl e => exact extract_enum_variants_subset refs e.variants
  | unionDecl u => exact List.Subset.refl _
  | traitDecl t => exact extract_trait_items_subset refs t.items
  | aliasDecl a => exact extract_type_names_subset a.target refs
  | constDecl c => exact extract_type_names_subset c.ty refs
  | staticDecl s => exact extract_type_names_subset s.ty refs
  | otherDecl => exact List.Subset.refl _

/-- The record pushed by the dispatcher carries the
display name as its `name`. -/
theorem extract_item_name (refs : List String) (d : Decl) (b : Bool)
    (n : String) (it : ItemInfo) (hd : d.display_name = some n)
    (hi : (extract_item refs d b).2 = some it) : it.itemName = n := by
  cases d with
  | module us ds => simp [extract_item] at hi
  | otherDecl => simp [extract_item] at hi
  | unionDecl u => simp [extract_item] at hi
  | functionDecl f =>
      simp only [Decl.display_name, Option.some.injEq] at hd
      simp only [extract_item, FunctionExtractor.extract,
        Option.some.injEq] at hi
      subst hi
      simp [ItemInfo.itemName, hd]
  | structDecl s =>
      simp only [Decl.display_name, Option.some.injEq] at hd
      simp only [extract_item, StructExtractor.extract,
        Option.some.injEq] at hi
      subst hi
      simp [ItemInfo.itemName, hd]
  | enumDecl e =>
      simp only [Decl.display_name, Option.some.injEq] at hd
      simp only [extract_item, EnumExtractor.extract,
        Option.some.injEq] at hi
      subst hi
      simp [ItemInfo.itemName, hd]
  | traitDecl t =>
      simp only [Decl.display_name, Option.some.injEq] at hd
      simp only [extract_item, TraitExtractor.extract,
        Option.some.injEq] at hi
      subst hi
      simp [ItemInfo.itemName, hd]
  | aliasDecl a =>
      simp only [Decl.display_name, Option.some.injEq] at hd
      simp only [extract_item, TypeAliasExtractor.extract,
        Option.some.injEq] at hi
      subst hi
      simp [ItemInfo.itemName, hd]
  | constDecl c =>
      simp only [Decl.display_name] at hd
      simp only [extract_item, ConstExtractor.extract,
        Option.some.injEq] at hi
      subst hi
      simp [ItemInfo.itemName, hd]
  | staticDecl s =>
      simp only [Decl.display_name, Option.some.injEq] at hd
      simp only [extract_item, StaticExtractor.extract,
        Option.some.injEq] at hi
      subst hi
      simp [ItemInfo.itemName, hd]

/-- An external-phase acceptance of a non-module declaration names a
member of the current reference set. -/
theorem should_extract_true_elim (refs : List String) (d : Decl)
    (hm : d.isModule = false)
    (h : should_extract_def refs d true = true) :
    ∃ n, d.display_name = some n ∧ n ∈ refs := by
  unfold should_extract_def at h
  simp only [Bool.not_true, Bool.false_eq_true, if_false, hm] at h
  cases hd : d.display_name with
  | none => rw [hd] at h; simp at h
  | some n =>
      rw [hd] at h
      exact ⟨n, rfl, by simpa using h⟩

/-- Unfolding `itemsOfMap` over a cons. -/
theorem itemsOfMap_cons (e : List String × FileTypeInfo) (es : FileMap) :
    itemsOfMap (e :: es) = e.2.items ++ itemsOfMap es := by
  simp [itemsOfMap]

/-- Creating a file record adds no items. -/
theorem itemsOfMap_get_or_create (p pd : List String) (b : Bool)
    (fm : FileMap) :
    itemsOfMap (get_or_create_file_info p pd b fm) = itemsOfMap fm := by
  unfold get_or_create_file_info
  by_cases h : (fm.lookup p).isSome = true
  · simp [h]
  · simp [h, itemsOfMap]

/-- Any item of the map after a push was there before or is the pushed
record. -/
theorem mem_appendItemAt (p : List String) (o : Option ItemInfo)
    (fm : FileMap) (it : ItemInfo)
    (h : it ∈ itemsOfMap (appendItemAt p o fm)) :
    it ∈ itemsOfMap fm ∨ o = some it := by
  cases o with
  | none => exact Or.inl h
  | some x =>
      rw [appendItemAt] at h
      induction fm with
      | nil => simp [itemsOfMap] at h
      | cons e es ih =>
          rw [List.map_cons, itemsOfMap_cons] at h
          rcases List.mem_append.mp h with h1 | h1
          · by_cases he : e.1 = p
            · rw [if_pos he] at h1
              have h1a : it ∈ e.2.items ∨ it = x := by simpa using h1
              rcases h1a with h2 | h2
              · exact Or.inl (by rw [itemsOfMap_cons]; exact List.mem_append.mpr (Or.inl h2))
              · exact Or.inr (by rw [h2])
            · rw [if_neg he] at h1
              exact Or.inl (by rw [itemsOfMap_cons]; exact List.mem_append.mpr (Or.inl h1))
          · rcases ih h1 with h2 | h2
            · exact Or.inl (by rw [itemsOfMap_cons]; exact List.mem_append.mpr (Or.inr h2))
            · exact Or.inr h2

/-- The item step only grows the reference set. -/
theorem walkItem_refs_mono (pd : List String) (b : Bool)
    (st : ExtractionState) (d : Decl) :
    st.referenced_types ⊆ (walkItem pd b st d).referenced_types := by
  unfold walkItem
  cases hf : d.fileOf with
  | none => simp only [hf]; exact List.Subset.refl _
  | some p => simp only [hf]; exact extract_item_subset st.referenced_types d b

/-- A non-module walk step only grows the reference set. -/
theorem walkDecl_item_refs_mono (pd : List String) (b : Bool)
    (st : ExtractionState) (d : Decl) (hm : d.isModule = false) :
    st.referenced_types ⊆ (walkDecl pd b st d).referenced_types := by
  rw [walkDecl_eq_walkItem pd b st d hm]
  by_cases hf : should_extract_def st.referenced_types d b
  · rw [if_pos hf]; exact walkItem_refs_mono pd b st d
  · rw [if_neg hf]; exact List.Subset.refl _

mutual

/-- The module walker only grows the reference set (single
declaration). -/
theorem walkDecl_refs_mono (pd : List String) (b : Bool)
    (st : ExtractionState) :
    (d : Decl) → st.referenced_types ⊆ (walkDecl pd b st d).referenced_types
  | .module us ds => by
      rw [walkDecl_module]
      exact walkDecls_refs_mono pd b st ds
  | .functionDecl f => walkDecl_item_refs_mono pd b st _ rfl
  | .structDecl s => walkDecl_item_refs_mono pd b st _ rfl
  | .enumDecl e => walkDecl_item_refs_mono pd b st _ rfl
  | .unionDecl u => walkDecl_item_refs_mono pd b st _ rfl
  | .traitDecl t => walkDecl_item_refs_mono pd b st _ rfl
  | .aliasDecl a => walkDecl_item_refs_mono pd b st _ rfl
  | .constDecl c => walkDecl_item_refs_mono pd b st _ rfl
  | .staticDecl s => walkDecl_item_refs_mono pd b st _ rfl
  | .otherDecl => walkDecl_item_refs_mono pd b st _ rfl

/-- The module walker only grows the reference set (declaration
list). -/
theorem walkDecls_refs_mono (pd : List String) (b : Bool) :
    (st : ExtractionState) → (ds : List Decl) →
      st.referenced_types ⊆ (walkDecls pd b st ds).referenced_types
  | _, [] => by simp [walkDecls]
  | st, d :: ds => by
      simp only [walkDecls]
      exact List.Subset.trans (walkDecl_refs_mono pd b st d)
        (walkDecls_refs_mono pd b (walkDecl pd b st d) ds)

end

/-- An item added by the external item step is named in the grown
reference set. -/
theorem walkItem_items (pd : List String) (st : ExtractionState) (d : Decl)
    (hm : d.isModule = false)
    (hf : should_extract_def st.referenced_types d true = true)
    (it : ItemInfo) (h : it ∈ itemsOfState (walkItem pd true st d)) :
    it ∈ itemsOfState st
      ∨ it.itemName ∈ (walkItem pd true st d).referenced_types := by
  obtain ⟨n, hd, hn⟩ := should_extract_true_elim st.referenced_types d hm hf
  unfold walkItem at h ⊢
  cases hfile : d.fileOf with
  | none => rw [hfile] at h; exact Or.inl h
  | some p =>
      rw [hfile] at h
      rcases mem_appendItemAt p (extract_item st.referenced_types d true).2
          (get_or_create_file_info p pd true st.file_infos) it h with h1 | h1
      · rw [itemsOfMap_get_or_create] at h1
        exact Or.inl h1
      · right
        rw [extract_item_name st.referenced_types d true n it hd h1]
        exact extract_item_subset st.referenced_types d true hn

/-- An item added by a non-module external walk step is named in the
grown reference set. -/
theorem walkDecl_item_items (pd : List String) (st : ExtractionState)
    (d : Decl) (hm : d.isModule = false) (it : ItemInfo)
    (h : it ∈ itemsOfState (walkDecl pd true st d)) :
    it ∈ itemsOfState st
      ∨ it.itemName ∈ (walkDecl pd true st d).referenced_types := by
  rw [walkDecl_eq_walkItem pd true st d hm] at h ⊢
  by_cases hf : should_extract_def st.referenced_types d true
  · rw [if_pos hf] at h ⊢
    exact walkItem_items pd st d hm hf it h
  · rw [if_neg hf] at h
    exact Or.inl h

mutual

/-- Provenance of items through an external walk (single
declaration): every item is pre-existing or named in the final
reference set. -/
theorem walkDecl_items (pd : List String) (st : ExtractionState) :
    (d : Decl) → ∀ it : ItemInfo,
      it ∈ itemsOfState (walkDecl pd true st d) →
      it ∈ itemsOfState st
        ∨ it.itemName ∈ (walkDecl pd true st d).referenced_types
  | .module us ds => by
      rw [walkDecl_module]
      exact walkDecls_items pd st ds
  | .functionDecl f => walkDecl_item_items pd st _ rfl
  | .structDecl s => walkDecl_item_items pd st _ rfl
  | .enumDecl e => walkDecl_item_items pd st _ rfl
  | .unionDecl u => walkDecl_item_items pd st _ rfl
  | .traitDecl t => walkDecl_item_items pd st _ rfl
  | .aliasDecl a => walkDecl_item_items pd st _ rfl
  | .constDecl c => walkDecl_item_items pd st _ rfl
  | .staticDecl s => walkDecl_item_items pd st _ rfl
  | .otherDecl => walkDecl_item_items pd st _ rfl

/-- Provenance of items through an external walk (declaration list). -/
theorem walkDecls_items (pd : List String) :
    (st : ExtractionState) → (ds : List Decl) → ∀ it : ItemInfo,
      it ∈ itemsOfState (walkDecls pd true st ds) →
      it ∈ itemsOfState st
        ∨ it.itemName ∈ (walkDecls pd true st ds).referenced_types
  | st, [], it => by simp [walkDecls]; exact Or.inl
  | st, d :: ds, it => by
      simp only [walkDecls]
      intro h
      rcases walkDecls_items pd (walkDecl pd true st d) ds it h with h1 | h1
      · rcases walkDecl_items pd st d it h1 with h2 | h2
        · exact Or.inl h2
        · exact Or.inr
            (walkDecls_refs_mono pd true (walkDecl pd true st d) ds h2)
      · exact Or.inr h1

end

/-- Processing an external crate only grows the reference set. -/
theorem process_crate_false_refs_mono (c : CargoInfoMap) (pd : List String)
    (k : HirCrate) (st : ExtractionState) :
    st.referenced_types ⊆ (process_crate c pd false k st).referenced_types :=
  walkDecls_refs_mono pd (!false)
    { st with crate_metadata :=
        register_crate_metadata c (crateDisplay k) false st.crate_metadata }
    k.root_decls

/-- Provenance of items through one external crate. -/
theorem process_crate_false_items (c : CargoInfoMap) (pd : List String)
    (k : HirCrate) (st : ExtractionState) (it : ItemInfo)
    (h : it ∈ itemsOfState (process_crate c pd false k st)) :
    it ∈ itemsOfState st
      ∨ it.itemName ∈ (process_crate c pd false k st).referenced_types :=
  walkDecls_items pd
    { st with crate_metadata :=
        register_crate_metadata c (crateDisplay k) false st.crate_metadata }
    k.root_decls it h

/-- The external-crate fold only grows the reference set. -/
theorem extFold_refs_mono (c : CargoInfoMap) (pd : List String) :
    (ks : List HirCrate) → (st : ExtractionState) →
    st.referenced_types ⊆
      ((ks.foldl (fun st k => process_crate c pd false k st) st)).referenced_types
  | [], _ => List.Subset.refl _
  | k :: ks, st => by
      rw [List.foldl_cons]
      exact List.Subset.trans (process_crate_false_refs_mono c pd k st)
        (extFold_refs_mono c pd ks (process_crate c pd false k st))

/-- Provenance of items through the external-crate fold. -/
theorem extFold_items (c : CargoInfoMap) (pd : List String) :
    (ks : List HirCrate) → (st : ExtractionState) → ∀ it : ItemInfo,
    it ∈ itemsOfState (ks.foldl (fun st k => process_crate c pd false k st) st) →
    it ∈ itemsOfState st
      ∨ it.itemName ∈
          ((ks.foldl (fun st k => process_crate c pd false k st) st)).referenced_types
  | [], _, it => Or.inl
  | k :: ks, st, it => by
      rw [List.foldl_cons]
      intro h
      rcases extFold_items c pd ks (process_crate c pd false k st) it h with h1 | h1
      · rcases process_crate_false_items c pd k st it h1 with h2 | h2
        · exact Or.inl h2
        · exact Or.inr
            (extFold_refs_mono c pd ks (process_crate c pd false k st) h2)
      · exact Or.inr h1

/-- C1, counterexample: the claim that every external item in the
output is named by the local-only reference set fails on
`twoCrateWorld` — the external struct `Helper` is present in the output
(its name was recorded during Phase 2 from the field type of the kept
external struct `Serialize`), yet `Helper` never appears in local
source and is not in the Phase 1 reference set. -/
theorem c1_external_filtering_counterexample :
    ¬ ExternalFilteringSound twoCrateWorld := by
  intro hsound
  have h := hsound (ItemInfo.structInfo "Helper" "hid" []) (by decide) (by decide)
  revert h
  decide

/-- C1, amended (proved): every item of the final output is a Phase 1
(local) item, or else its name is in the reference set at the end of
the run — the set seeded by local imports and local type positions and
further grown, during Phase 2, by names recorded from already-kept
external items. The filter consults the set at the time of each check,
not the local-only snapshot. -/
theorem c1_external_filtering_amended (w : World) (it : ItemInfo)
    (h : it ∈ itemsOfState (extractRun w)) :
    it ∈ itemsOfState (phase1Run w)
      ∨ it.itemName ∈ (extractRun w).referenced_types := by
  unfold extractRun phase2From at h ⊢
  exact extFold_items w.cargo_info w.project_dir (externalCrates w)
    (phase1Run w) it h

/-- Witness for the amended C1 on the concrete two-crate world. -/
theorem c1_external_filtering_amended_witness :
    ItemInfo.structInfo "Helper" "hid" [] ∈ itemsOfState (phase1Run twoCrateWorld)
      ∨ (ItemInfo.structInfo "Helper" "hid" []).itemName
          ∈ (extractRun twoCrateWorld).referenced_types :=
  c1_external_filtering_amended twoCrateWorld _ (by decide)

end Forgen
